import Mathlib

/-!
Shallow embedding of the geometry flattener, selection aggregator and
session visibility flag of `src/streamlit_app.py` (BCOG_regional).

Coordinates and attribute values are modelled over `ℚ`: the flattener only
reorganises coordinates (no arithmetic), and the aggregator claims are
stated for exact rational arithmetic.  The Python `None` gap sentinel is
`Option.none`; a raised exception is an `Except.error`.
-/

/-- A 2-D coordinate, as one entry of `geometry.exterior.coords`. -/
structure Point where
  x : ℚ
  y : ℚ
deriving DecidableEq, Repr

/-- The geometry variants `extract_coordinates` distinguishes via
`isinstance`: a shapely `Polygon` (its exterior-ring coordinate list), a
shapely `MultiPolygon` (the exterior-ring coordinate list of each
sub-polygon, in order), or any other geometry (the final `return [], []`
branch). -/
inductive Geometry where
  | polygon (ring : List Point)
  | multiPolygon (polys : List (List Point))
  | other
deriving DecidableEq, Repr

/-- The Python exceptions the flattener can raise. -/
inductive PyError where
  | indexError
  | valueError
deriving DecidableEq, Repr

/-- An entry of a flattened coordinate sequence: a coordinate value
(`some q`) or the `None` gap sentinel (`none`). -/
abbrev CoordEntry := Option ℚ

/-- The Python expression `zip(*coords)` on a list of 2-D coordinate pairs: the
transpose.  `zip` of zero iterables yields no tuples at all, so an empty
coordinate list transposes to the empty list; a non-empty one transposes
to exactly two tuples, the first components and the second components. -/
def zipStar (coords : List Point) : List (List ℚ) :=
  match coords with
  | [] => []
  | _ => [coords.map Point.x, coords.map Point.y]

/-- The `MultiPolygon` loop of `extract_coordinates`: for each sub-polygon,
`x, y = zip(*poly.exterior.coords)` (a `ValueError` when the transpose does
not yield exactly two tuples, i.e. when the ring is empty), then
`x_coords.extend(x + (None,))` and `y_coords.extend(y + (None,))`. -/
def multiFlatten : List (List Point) → Except PyError (List CoordEntry × List CoordEntry)
  | [] => .ok ([], [])
  | ring :: rest =>
    match zipStar ring with
    | [xs, ys] =>
      match multiFlatten rest with
      | .ok (xr, yr) => .ok (xs.map some ++ [none] ++ xr, ys.map some ++ [none] ++ yr)
      | .error e => .error e
    | _ => .error .valueError

/-- `extract_coordinates(geometry)` from `src/streamlit_app.py`.
For a `Polygon` it returns `list(zip(*coords))[0], list(zip(*coords))[1]`
(an `IndexError` when the transposed list has no element 0, i.e. the ring
is empty); for a `MultiPolygon` it runs the accumulating loop
`multiFlatten`; for anything else it returns `[], []`. -/
def extract_coordinates : Geometry → Except PyError (List CoordEntry × List CoordEntry)
  | .polygon ring =>
    match (zipStar ring)[0]?, (zipStar ring)[1]? with
    | some xs, some ys => .ok (xs.map some, ys.map some)
    | _, _ => .error .indexError
  | .multiPolygon polys => multiFlatten polys
  | .other => .ok ([], [])

/-- One row of the region GeoDataFrame: `REGION_NAM`, `Rate`, `Area`
(the geometry column is irrelevant to the aggregator). -/
structure Region where
  name : String
  rate : ℚ
  area : ℚ
deriving DecidableEq, Repr

/-- The row filter `gdf[gdf[REGION_NAM].isin(selected_regions)]`: the rows
whose name is in the selection, in their original order. -/
def selected_gdf (gdf : List Region) (sel : List String) : List Region :=
  gdf.filter (fun r => sel.contains r.name)

/-- The sum of the Area column of `selected_gdf`. -/
def selected_area (gdf : List Region) (sel : List String) : ℚ :=
  ((selected_gdf gdf sel).map Region.area).sum

/-- The sum of the Area column of the full region set. -/
def total_area (gdf : List Region) : ℚ :=
  (gdf.map Region.area).sum

/-- The attribute view of a row list: its (REGION_NAM, Rate, Area) columns. -/
def attrView (rows : List Region) : List (String × ℚ × ℚ) :=
  rows.map (fun r => (r.name, r.rate, r.area))

/-- The names offered by the multiselect control,
`sorted(gdf[REGION_NAM].dropna().unique().tolist())`: the distinct
region names, sorted.  Names are modelled as `String`, so `dropna` drops
nothing. -/
def region_names (gdf : List Region) : List String :=
  ((gdf.map Region.name).dedup).mergeSort (fun a b => a ≤ b)

/-- One top-to-bottom rendering pass of the new-page section, acting on the
stored session flag (`none` when the key `show_new_page` is absent):
the key is initialised to `False` when absent, the button sets it to `True`
when pressed this pass, and the secondary block renders exactly when the
resulting flag is true.  Returns (stored flag after the pass, whether the
secondary block was shown). -/
def runPass (stored : Option Bool) (buttonPressed : Bool) : Bool × Bool :=
  let flag0 : Bool :=
    match stored with
    | none => false
    | some b => b
  let flag1 : Bool := if buttonPressed then true else flag0
  (flag1, flag1)

/-- The stored flag after a session of passes with the given button
activations, starting from an absent key. -/
def sessionFlag (presses : List Bool) : Option Bool :=
  presses.foldl (fun s b => some (runPass s b).1) none

/-- Whether a Python call returned normally rather than raising. -/
def returnsValue {α : Type} (r : Except PyError α) : Bool :=
  match r with
  | .ok _ => true
  | .error _ => false

/-- The expected flattened x-sequence of a multi-polygon: each sub-polygon
ring mapped to its x-coordinates followed by one gap sentinel, sub-polygons
in their given order. -/
def flattenXs (polys : List (List Point)) : List CoordEntry :=
  (polys.map (fun r => r.map (fun p => (some p.x : CoordEntry)) ++ [none])).flatten

/-- The expected flattened y-sequence of a multi-polygon, analogous to
`flattenXs`. -/
def flattenYs (polys : List (List Point)) : List CoordEntry :=
  (polys.map (fun r => r.map (fun p => (some p.y : CoordEntry)) ++ [none])).flatten

/-- The multi-polygon example of the spec: rings [(0,0),(1,0),(1,1)] and
[(2,2),(3,2),(3,3)]. -/
def demoPolys : List (List Point) :=
  [[⟨0, 0⟩, ⟨1, 0⟩, ⟨1, 1⟩], [⟨2, 2⟩, ⟨3, 2⟩, ⟨3, 3⟩]]

/-- The region-set example of the spec: A with area 10, B with area 20, C
with area 5 (rates arbitrary). -/
def demoRegions : List Region :=
  [⟨"A", 1, 10⟩, ⟨"B", 2, 20⟩, ⟨"C", 3, 5⟩]

theorem zipStar_cons (p : Point) (ps : List Point) :
    zipStar (p :: ps) = [(p :: ps).map Point.x, (p :: ps).map Point.y] := rfl

/-- Claim C2: for a simple polygon whose exterior ring is non-empty, the
flattener returns exactly the x- and y-coordinates of the ring, in order,
of the same length as the ring, with no gap sentinel inserted. -/
theorem extract_polygon_verbatim (ring : List Point) (h : ring ≠ []) :
    extract_coordinates (.polygon ring) =
      .ok (ring.map (fun p => (some p.x : CoordEntry)),
           ring.map (fun p => (some p.y : CoordEntry))) ∧
    (ring.map (fun p => (some p.x : CoordEntry))).length = ring.length ∧
    (ring.map (fun p => (some p.y : CoordEntry))).length = ring.length ∧
    (ring.map (fun p => (some p.x : CoordEntry))).count none = 0 ∧
    (ring.map (fun p => (some p.y : CoordEntry))).count none = 0 := by
  cases ring with
  | nil => exact absurd rfl h
  | cons p ps =>
    refine ⟨?_, by simp, by simp, ?_, ?_⟩
    · simp [extract_coordinates, zipStar_cons, List.map_map]
    · rw [List.count_eq_zero]
      simp
    · rw [List.count_eq_zero]
      simp

theorem extract_polygon_verbatim_witness :
    extract_coordinates (.polygon [⟨0, 0⟩, ⟨1, 0⟩, ⟨1, 1⟩, ⟨0, 0⟩]) =
      .ok (([⟨0, 0⟩, ⟨1, 0⟩, ⟨1, 1⟩, ⟨0, 0⟩] : List Point).map (fun p => (some p.x : CoordEntry)),
           ([⟨0, 0⟩, ⟨1, 0⟩, ⟨1, 1⟩, ⟨0, 0⟩] : List Point).map (fun p => (some p.y : CoordEntry))) ∧
    (([⟨0, 0⟩, ⟨1, 0⟩, ⟨1, 1⟩, ⟨0, 0⟩] : List Point).map (fun p => (some p.x : CoordEntry))).length =
      ([⟨0, 0⟩, ⟨1, 0⟩, ⟨1, 1⟩, ⟨0, 0⟩] : List Point).length ∧
    (([⟨0, 0⟩, ⟨1, 0⟩, ⟨1, 1⟩, ⟨0, 0⟩] : List Point).map (fun p => (some p.y : CoordEntry))).length =
      ([⟨0, 0⟩, ⟨1, 0⟩, ⟨1, 1⟩, ⟨0, 0⟩] : List Point).length ∧
    (([⟨0, 0⟩, ⟨1, 0⟩, ⟨1, 1⟩, ⟨0, 0⟩] : List Point).map (fun p => (some p.x : CoordEntry))).count none = 0 ∧
    (([⟨0, 0⟩, ⟨1, 0⟩, ⟨1, 1⟩, ⟨0, 0⟩] : List Point).map (fun p => (some p.y : CoordEntry))).count none = 0 :=
  extract_polygon_verbatim [⟨0, 0⟩, ⟨1, 0⟩, ⟨1, 1⟩, ⟨0, 0⟩] (by simp)

/-- Claim C3: a multi-polygon with zero sub-polygons flattens to two empty
sequences, and any geometry that is neither a polygon nor a multi-polygon
flattens to two empty sequences, no error raised in either case. -/
theorem extract_unsupported (g : Geometry)
    (h1 : ∀ ring, g ≠ .polygon ring) (h2 : ∀ polys, g ≠ .multiPolygon polys) :
    extract_coordinates (.multiPolygon []) = .ok ([], []) ∧
    extract_coordinates g = .ok ([], []) := by
  refine ⟨rfl, ?_⟩
  cases g with
  | polygon ring => exact absurd rfl (h1 ring)
  | multiPolygon polys => exact absurd rfl (h2 polys)
  | other => rfl

theorem extract_unsupported_witness :
    extract_coordinates (.multiPolygon []) = .ok ([], []) ∧
    extract_coordinates .other = .ok ([], []) :=
  extract_unsupported .other (fun _ h => Geometry.noConfusion h)
    (fun _ h => Geometry.noConfusion h)

/-- Claim C10: the polygon branch is not total: on a polygon whose exterior
ring is empty the transposed coordinate list has no element 0 and an
IndexError is raised, and the branch returns a value exactly when the ring
is non-empty. -/
theorem polygon_branch_partiality :
    extract_coordinates (.polygon []) = .error .indexError ∧
    ∀ ring : List Point,
      returnsValue (extract_coordinates (.polygon ring)) = true ↔ ring ≠ [] := by
  refine ⟨rfl, fun ring => ?_⟩
  cases ring with
  | nil => simp [extract_coordinates, zipStar, returnsValue]
  | cons p ps => simp [extract_coordinates, zipStar_cons, returnsValue]

theorem polygon_branch_partiality_witness :
    extract_coordinates (.polygon []) = .error .indexError ∧
    (returnsValue (extract_coordinates (.polygon [⟨0, 0⟩])) = true ↔
      ([⟨0, 0⟩] : List Point) ≠ []) :=
  ⟨polygon_branch_partiality.1, polygon_branch_partiality.2 [⟨0, 0⟩]⟩

theorem multiFlatten_eq (polys : List (List Point)) (h : ∀ r ∈ polys, r ≠ []) :
    multiFlatten polys = .ok (flattenXs polys, flattenYs polys) := by
  induction polys with
  | nil => rfl
  | cons ring rest ih =>
    have hr : ring ≠ [] := h ring (by simp)
    have hrest : ∀ r ∈ rest, r ≠ [] := fun r hm => h r (by simp [hm])
    cases ring with
    | nil => exact absurd rfl hr
    | cons p ps =>
      simp only [multiFlatten, zipStar_cons, ih hrest, flattenXs, flattenYs,
        List.map_cons, List.flatten_cons, List.map_map]
      simp [Function.comp]

theorem count_none_flattenXs (polys : List (List Point)) :
    (flattenXs polys).count none = polys.length := by
  induction polys with
  | nil => rfl
  | cons ring rest ih =>
    simp only [flattenXs, List.map_cons, List.flatten_cons, List.count_append] at ih ⊢
    rw [ih]
    have h0 : (ring.map (fun p => (some p.x : CoordEntry))).count none = 0 := by
      rw [List.count_eq_zero]; simp
    simp [h0]
    omega

theorem count_none_flattenYs (polys : List (List Point)) :
    (flattenYs polys).count none = polys.length := by
  induction polys with
  | nil => rfl
  | cons ring rest ih =>
    simp only [flattenYs, List.map_cons, List.flatten_cons, List.count_append] at ih ⊢
    rw [ih]
    have h0 : (ring.map (fun p => (some p.y : CoordEntry))).count none = 0 := by
      rw [List.count_eq_zero]; simp
    simp [h0]
    omega

theorem length_flattenXs_eq_flattenYs (polys : List (List Point)) :
    (flattenXs polys).length = (flattenYs polys).length := by
  induction polys with
  | nil => rfl
  | cons ring rest ih =>
    simp only [flattenXs, flattenYs, List.map_cons, List.flatten_cons,
      List.length_append, List.length_map] at ih ⊢
    omega

/-- Claim C1: for a multi-polygon with k sub-polygons (k at least 1, every
exterior ring non-empty as shapely guarantees for multi-polygon parts), the
flattener returns the rings in their given order, each ring of
x-coordinates (resp. y-coordinates) followed by exactly one trailing gap
sentinel, so each output holds exactly k sentinels and the two outputs have
equal length. -/
theorem extract_multi_sentinels (polys : List (List Point))
    (hk : polys ≠ []) (hne : ∀ r ∈ polys, r ≠ []) :
    extract_coordinates (.multiPolygon polys) = .ok (flattenXs polys, flattenYs polys) ∧
    (flattenXs polys).count none = polys.length ∧
    (flattenYs polys).count none = polys.length ∧
    (flattenXs polys).length = (flattenYs polys).length :=
  ⟨multiFlatten_eq polys hne, count_none_flattenXs polys, count_none_flattenYs polys,
    length_flattenXs_eq_flattenYs polys⟩

theorem extract_multi_sentinels_witness :
    extract_coordinates (.multiPolygon demoPolys) = .ok (flattenXs demoPolys, flattenYs demoPolys) ∧
    (flattenXs demoPolys).count none = demoPolys.length ∧
    (flattenYs demoPolys).count none = demoPolys.length ∧
    (flattenXs demoPolys).length = (flattenYs demoPolys).length :=
  extract_multi_sentinels demoPolys (by simp [demoPolys]) (by simp [demoPolys])

/-- The flattening of the multi-polygon example of the spec, evaluated:
xs = [0, 1, 1, None, 2, 3, 3, None] and ys = [0, 0, 1, None, 2, 2, 3, None]. -/
theorem demoPolys_flattening :
    extract_coordinates (.multiPolygon demoPolys) =
      .ok ([some 0, some 1, some 1, none, some 2, some 3, some 3, none],
           [some 0, some 0, some 1, none, some 2, some 2, some 3, none]) := rfl

theorem multiFlatten_gap_alignment (polys : List (List Point))
    (xs ys : List CoordEntry) (h : multiFlatten polys = .ok (xs, ys)) :
    xs.map Option.isNone = ys.map Option.isNone := by
  induction polys generalizing xs ys with
  | nil =>
    simp only [multiFlatten, Except.ok.injEq, Prod.mk.injEq] at h
    rw [← h.1, ← h.2]
  | cons ring rest ih =>
    cases ring with
    | nil => simp [multiFlatten, zipStar] at h
    | cons p ps =>
      cases hrec : multiFlatten rest with
      | error e => simp [multiFlatten, zipStar_cons, hrec] at h
      | ok pr =>
        obtain ⟨xr, yr⟩ := pr
        simp only [multiFlatten, zipStar_cons, hrec, Except.ok.injEq, Prod.mk.injEq] at h
        rw [← h.1, ← h.2]
        simp only [List.map_append, List.map_map, ih xr yr hrec]
        simp [Function.comp]

/-- Claim C4: whenever the flattener returns (no exception), the two output
sequences have equal length and carry the gap sentinel at exactly the same
index positions, as witnessed by equal is-sentinel masks. -/
theorem gap_alignment (g : Geometry) (xs ys : List CoordEntry)
    (h : extract_coordinates g = .ok (xs, ys)) :
    xs.map Option.isNone = ys.map Option.isNone ∧ xs.length = ys.length := by
  have hmask : xs.map Option.isNone = ys.map Option.isNone := by
    cases g with
    | polygon ring =>
      cases ring with
      | nil => simp [extract_coordinates, zipStar] at h
      | cons p ps =>
        simp only [extract_coordinates, zipStar_cons, List.getElem?_cons_zero,
          List.getElem?_cons_succ, Except.ok.injEq, Prod.mk.injEq] at h
        rw [← h.1, ← h.2]
        simp [List.map_map, Function.comp]
    | multiPolygon polys => exact multiFlatten_gap_alignment polys xs ys h
    | other =>
      simp only [extract_coordinates, Except.ok.injEq, Prod.mk.injEq] at h
      rw [← h.1, ← h.2]
  refine ⟨hmask, ?_⟩
  have := congrArg List.length hmask
  simpa using this

theorem gap_alignment_witness :
    ([some 0, some 1, some 1, none, some 2, some 3, some 3, none] : List CoordEntry).map
        Option.isNone =
      ([some 0, some 0, some 1, none, some 2, some 2, some 3, none] : List CoordEntry).map
        Option.isNone ∧
    ([some 0, some 1, some 1, none, some 2, some 3, some 3, none] : List CoordEntry).length =
      ([some 0, some 0, some 1, none, some 2, some 2, some 3, none] : List CoordEntry).length :=
  gap_alignment (.multiPolygon demoPolys)
    [some 0, some 1, some 1, none, some 2, some 3, some 3, none]
    [some 0, some 0, some 1, none, some 2, some 2, some 3, none] rfl

theorem sum_area_filter_le (gdf : List Region) (p : Region → Bool)
    (h : ∀ r ∈ gdf, 0 ≤ r.area) :
    ((gdf.filter p).map Region.area).sum ≤ (gdf.map Region.area).sum := by
  induction gdf with
  | nil => simp
  | cons r t ih =>
    have h0 : 0 ≤ r.area := h r (by simp)
    have ht : ∀ x ∈ t, 0 ≤ x.area := fun x hx => h x (by simp [hx])
    rw [List.filter_cons]
    by_cases hp : p r
    · rw [if_pos hp]
      simp only [List.map_cons, List.sum_cons]
      exact add_le_add_left (ih ht) r.area
    · rw [if_neg hp]
      simp only [List.map_cons, List.sum_cons]
      calc ((t.filter p).map Region.area).sum ≤ (t.map Region.area).sum := ih ht
        _ ≤ r.area + (t.map Region.area).sum := le_add_of_nonneg_left h0

/-- Claim C5: for any region set and selection, the selected area plus the
remainder (total minus selected) equals the total area exactly over the
rationals, and the selected area never exceeds the total when every
individual area is non-negative. -/
theorem selected_area_partition (gdf : List Region) (sel : List String) :
    selected_area gdf sel + (total_area gdf - selected_area gdf sel) = total_area gdf ∧
    ((∀ r ∈ gdf, 0 ≤ r.area) → selected_area gdf sel ≤ total_area gdf) :=
  ⟨by ring,
   fun h => by
     simpa [selected_area, selected_gdf, total_area] using
       sum_area_filter_le gdf (fun r => sel.contains r.name) h⟩

theorem selected_area_partition_witness :
    selected_area demoRegions ["A", "C"] +
        (total_area demoRegions - selected_area demoRegions ["A", "C"]) =
      total_area demoRegions ∧
    selected_area demoRegions ["A", "C"] ≤ total_area demoRegions :=
  ⟨(selected_area_partition demoRegions ["A", "C"]).1,
   (selected_area_partition demoRegions ["A", "C"]).2 (by decide)⟩

theorem mem_region_names (gdf : List Region) (r : Region) (h : r ∈ gdf) :
    r.name ∈ region_names gdf := by
  unfold region_names
  rw [List.mem_mergeSort, List.mem_dedup]
  exact List.mem_map_of_mem Region.name h

/-- Claim C6: selecting every name offered by the multiselect control keeps
all the rows, so the selected area equals the total area and the filtered
attribute view equals the full attribute view in original order. -/
theorem select_all_regions (gdf : List Region) :
    selected_gdf gdf (region_names gdf) = gdf ∧
    selected_area gdf (region_names gdf) = total_area gdf ∧
    attrView (selected_gdf gdf (region_names gdf)) = attrView gdf := by
  have hfull : selected_gdf gdf (region_names gdf) = gdf := by
    unfold selected_gdf
    apply List.filter_eq_self.mpr
    intro r hr
    exact List.elem_iff.mpr (mem_region_names gdf r hr)
  refine ⟨hfull, ?_, by rw [hfull]⟩
  unfold selected_area total_area
  rw [hfull]

/-- Claim C7: the empty selection yields a selected area of zero and an
empty filtered attribute view. -/
theorem select_no_regions (gdf : List Region) :
    selected_area gdf [] = 0 ∧
    selected_gdf gdf [] = [] ∧
    attrView (selected_gdf gdf []) = [] := by
  have hnil : selected_gdf gdf [] = [] := by
    unfold selected_gdf
    apply List.filter_eq_nil_iff.mpr
    intro r hr
    simp
  refine ⟨?_, hnil, by rw [hnil]; rfl⟩
  unfold selected_area
  rw [hnil]
  rfl

/-- Claim C8: the filtered view holds exactly the rows whose name is in the
selection, as a sublist of the region set (original relative order), and a
selection name absent from every row contributes nothing to the view or to
the selected area, with no error. -/
theorem filtered_view_exact (gdf : List Region) (sel : List String) (x : String)
    (hx : x ∉ gdf.map Region.name) :
    (∀ r, r ∈ selected_gdf gdf sel ↔ (r ∈ gdf ∧ r.name ∈ sel)) ∧
    (selected_gdf gdf sel).Sublist gdf ∧
    selected_gdf gdf (x :: sel) = selected_gdf gdf sel ∧
    selected_area gdf (x :: sel) = selected_area gdf sel := by
  have hmem : ∀ r, r ∈ selected_gdf gdf sel ↔ (r ∈ gdf ∧ r.name ∈ sel) := by
    intro r
    unfold selected_gdf
    rw [List.mem_filter]
    constructor
    · rintro ⟨h1, h2⟩
      exact ⟨h1, List.elem_iff.mp h2⟩
    · rintro ⟨h1, h2⟩
      exact ⟨h1, List.elem_iff.mpr h2⟩
  have hskip : selected_gdf gdf (x :: sel) = selected_gdf gdf sel := by
    unfold selected_gdf
    apply List.filter_congr
    intro r hr
    have hne : r.name ≠ x := by
      intro hEq
      exact hx (hEq ▸ List.mem_map_of_mem Region.name hr)
    simp [List.contains_cons, hne]
  exact ⟨hmem, List.filter_sublist gdf, hskip, by unfold selected_area; rw [hskip]⟩

theorem filtered_view_exact_witness :
    ((Region.mk "A" 1 10) ∈ selected_gdf demoRegions ["A", "C"] ↔
      ((Region.mk "A" 1 10) ∈ demoRegions ∧ (Region.mk "A" 1 10).name ∈ ["A", "C"])) ∧
    (selected_gdf demoRegions ["A", "C"]).Sublist demoRegions ∧
    selected_gdf demoRegions ("Z" :: ["A", "C"]) = selected_gdf demoRegions ["A", "C"] ∧
    selected_area demoRegions ("Z" :: ["A", "C"]) = selected_area demoRegions ["A", "C"] := by
  have h := filtered_view_exact demoRegions ["A", "C"] "Z" (by decide)
  exact ⟨h.1 (Region.mk "A" 1 10), h.2.1, h.2.2.1, h.2.2.2⟩

theorem sessionFlag_foldl (presses : List Bool) (v : Bool) :
    presses.foldl (fun s b => some (runPass s b).1) (some v) =
      some (v || presses.any id) := by
  induction presses generalizing v with
  | nil => simp
  | cons b t ih =>
    simp only [List.foldl_cons, List.any_cons, ih]
    cases b <;> cases v <;> simp [runPass]

/-- Claim C9: the session visibility flag starts off (false) with the key
absent, the button action sets it to true, the secondary block renders
exactly when the flag is true, a pass without the button action leaves the
flag unchanged, and over a whole session the flag is on exactly when some
pass pressed the button. -/
theorem session_flag_behavior :
    runPass none false = (false, false) ∧
    (∀ s b, (runPass s b).2 = (runPass s b).1) ∧
    (∀ s, (runPass s true).1 = true) ∧
    (∀ b, (runPass (some b) false).1 = b) ∧
    (∀ presses, (sessionFlag presses).getD false = presses.any id) := by
  refine ⟨rfl, fun s b => rfl, fun s => rfl, fun b => rfl, fun presses => ?_⟩
  cases presses with
  | nil => rfl
  | cons b t =>
    unfold sessionFlag
    rw [List.foldl_cons]
    have hb : some (runPass none b).1 = some (false || b) := by cases b <;> rfl
    rw [hb, sessionFlag_foldl]
    cases b <;> simp
